import Mathlib

/-!
Verification development for the `show_py` repository.

The repository implements one debug-printing utility, `show` (file
`src/show_py/show.py`), which prints each argument expression's recovered
source text together with the value's repr, and returns the value(s).
Below we give a shallow embedding of the module's functions:

* `_get_function_name`        → `ShowPy.get_function_name`
* `_extract_expressions_from_ast` → `ShowPy.extract_expressions_from_ast`
* `_try_ipython_history`      → `ShowPy.try_ipython_history`
* `_get_source_code`          → `ShowPy.get_source_code`
* `_match_variables_to_values` → `ShowPy.match_variables_to_values`
* `show`                      → `ShowPy.show_py` (`show` is reserved in Lean)

Python objects are modelled as an identity tag (`Obj.id`, the result of
CPython's `id`) together with a value (`PyVal`).  External effects used by
the code — `ast.parse`, `inspect` source lookups, the IPython history
manager, `repr` — are modelled as oracle fields of explicit environment
structures; a Python exception raised by such an operation is modelled as
`Except.error` carrying the exception's class (`PyExc`).  Python linenos
and offsets are `Int` (the code computes `first_line - 1`, which can be
negative for module-level frames).
-/

namespace ShowPy

/-- Python exception classes that the code under `src/` raises or catches. -/
inductive PyExc where
  | osError
  | typeError
  | syntaxError
  | valueError
  | otherExc
deriving DecidableEq

/-- A Python value, as far as `show.py` inspects values: the elementary
immutable kinds named in `isinstance(val, (int, float, str, bool, type(None)))`
plus an opaque constructor for every other object.  Floats are modelled by
the rationals (every finite double is rational and `==` on them agrees with
rational equality). -/
inductive PyVal where
  | int (n : Int)
  | float (q : Rat)
  | bool (b : Bool)
  | str (s : String)
  | none
  | other (tag : Nat)
deriving DecidableEq

/-- A Python object: an identity (CPython `id`, compared by `is`) plus the
object's value.  Two distinct objects may hold equal values. -/
structure Obj where
  id : Nat
  val : PyVal
deriving DecidableEq

/-- Numeric view of a value: Python `int`, `bool` and `float` compare as
numbers (`True == 1`, `1 == 1.0`). -/
def pyNum : PyVal → Option Rat
  | .int n => some (n : Rat)
  | .bool b => some (if b then 1 else 0)
  | .float q => some q
  | _ => Option.none

/-- Python `==` restricted to the cases `_match_variables_to_values`
evaluates (the left operand is a local's value, the right operand is one of
the elementary immutable kinds): numeric kinds compare numerically, strings
compare by content, `None` equals `None`, and everything else is unequal
(default object equality with an elementary value is `False`). -/
def pyEq (a b : PyVal) : Bool :=
  match pyNum a, pyNum b with
  | some x, some y => x == y
  | _, _ =>
    match a, b with
    | .str s, .str t => s == t
    | .none, .none => true
    | _, _ => false

/-- Models `isinstance(val, (int, float, str, bool, type(None)))`. -/
def is_elementary : PyVal → Bool
  | .int _ => true
  | .float _ => true
  | .bool _ => true
  | .str _ => true
  | .none => true
  | .other _ => false

/-- Python truthiness of a value (`if not source`). -/
def pyTruthy : PyVal → Bool
  | .int n => n != 0
  | .float q => q != 0
  | .bool b => b
  | .str s => !s.data.isEmpty
  | .none => false
  | .other _ => true

/-- Models Python `str.startswith` (structurally, on the character lists). -/
def str_startswith (s p : String) : Bool :=
  p.data.isPrefixOf s.data

/-- Models Python `needle in hay` for strings: some drop of the haystack
has the needle as a prefix. -/
def contains_substr (hay needle : String) : Bool :=
  (List.range (hay.length + 1)).any fun i => needle.data.isPrefixOf (hay.data.drop i)

/-- Characters stripped by Python `str.strip()`. -/
def is_py_space (c : Char) : Bool :=
  c == ' ' || c == '\t' || c == '\n' || c == '\r' || c == '\x0b' || c == '\x0c'

/-- Models Python `str.strip()`: drop whitespace from both ends. -/
def str_strip (s : String) : String :=
  String.mk (((s.data.dropWhile is_py_space).reverse.dropWhile is_py_space).reverse)

/-! ### The AST as `show.py` consumes it

`_extract_expressions_from_ast` walks the tree, keeps the `ast.Call` nodes,
reads `node.func` (an `ast.Name` or `ast.Attribute`), `node.lineno`, and for
each positional argument the result of `ast.get_source_segment(source, arg)`.
We embed a parsed tree as the list of its `Call` nodes in `ast.walk` order;
each argument node carries the segment that `ast.get_source_segment` would
return for it from the parsed source (`Option.none` when location info is
missing). -/

/-- A positional argument of a call: the source segment
`ast.get_source_segment(source, arg)` yields for it. -/
structure ArgNode where
  segment : Option String
deriving DecidableEq

/-- The shape of `node.func` as far as `_get_function_name` looks:
an `ast.Name` (with its `id`), an `ast.Attribute` (with its `attr`; the
receiver expression is not consulted), or any other expression. -/
inductive FuncKind where
  | name (id : String)
  | attr (a : String)
  | otherFunc
deriving DecidableEq

/-- An `ast.Call` node: its `func` shape, its 1-based `lineno`, and its
positional arguments. -/
structure CallNode where
  func : FuncKind
  lineno : Int
  args : List ArgNode
deriving DecidableEq

/-- A parsed tree, reduced to its `Call` nodes in `ast.walk` order. -/
abbrev Tree : Type := List CallNode

/-- Embedding of `_get_function_name` (show.py lines 14-27): the `id` of an
`ast.Name` func, the `attr` of an `ast.Attribute` func, `None` otherwise. -/
def get_function_name (node : CallNode) : Option String :=
  match node.func with
  | .name id => some id
  | .attr a => some a
  | .otherFunc => Option.none

/-- The test `func_name == target_func` (a `None` func name never matches). -/
def call_name_matches (target_func : String) (node : CallNode) : Bool :=
  get_function_name node == some target_func

/-- The test `target_lineno is None or (node.lineno + lineno_offset == target_lineno)`. -/
def call_line_matches (target_lineno : Option Int) (lineno_offset : Int) (node : CallNode) : Bool :=
  match target_lineno with
  | Option.none => true
  | some t => node.lineno + lineno_offset == t

/-- The inner `for arg in node.args` loop of `_extract_expressions_from_ast`:
for each positional argument take `ast.get_source_segment`'s result, skip it
when it is `None` or empty (`if expr_str:`), otherwise keep `expr_str.strip()`. -/
def recoverable_args (node : CallNode) : List String :=
  node.args.filterMap fun a =>
    match a.segment with
    | some s => if s.data.isEmpty then Option.none else some (str_strip s)
    | Option.none => Option.none

/-- The `for node in ast.walk(tree)` loop of `_extract_expressions_from_ast`
(show.py lines 44-57), with the accumulated `exprs` list passed explicitly:
on a call whose name and line match, append the recoverable argument texts
and stop (`if exprs: break`) as soon as the list is non-empty. -/
def extract_loop (target_func : String) (target_lineno : Option Int) (lineno_offset : Int) :
    List CallNode → List String → List String
  | [], exprs => exprs
  | node :: rest, exprs =>
    if call_name_matches target_func node && call_line_matches target_lineno lineno_offset node then
      let exprs2 := exprs ++ recoverable_args node
      if exprs2.isEmpty then extract_loop target_func target_lineno lineno_offset rest exprs2
      else exprs2
    else extract_loop target_func target_lineno lineno_offset rest exprs

/-- Embedding of `_extract_expressions_from_ast` (show.py lines 30-57). -/
def extract_expressions_from_ast (tree : Tree) (target_func : String)
    (target_lineno : Option Int) (lineno_offset : Int) : List String :=
  extract_loop target_func target_lineno lineno_offset tree []

/-! ### IPython history -/

/-- The slice of the IPython history manager that `_try_ipython_history`
consults: the current `session_number` and `get_range(session, output=False)`
materialised as a list of history entries.  Each entry is the tuple
`(session, line_num, input)`, modelled as a list of values so that malformed
(short) entries are representable; `get_range` may raise. -/
structure HistShell where
  session_number : Int
  get_range : Int → Except PyExc (List (List PyVal))

/-- The ambient IPython state probed by `_try_ipython_history`:
the module may be absent from `sys.modules`, `get_ipython()` may return
nothing, the shell may lack a `history_manager`, or a shell with a history
manager is available. -/
inductive IPythonState where
  | absent
  | noShell
  | noHistoryManager
  | shell (sh : HistShell)

/-- The tail of `_try_ipython_history` acting on the last history entry's
third field (show.py lines 90-96): `if not source or 'show(' not in source:
return []`, then `ast.parse` and extract.  A non-string field makes
`'show(' in source` raise `TypeError`, which the function's blanket
`except Exception` turns into `[]`, as it does a parse failure. -/
def hist_str_exprs (parse : String → Except PyExc Tree) (s : String) : List String :=
  if !pyTruthy (.str s) || !contains_substr s "show(" then []
  else
    match parse s with
    | .error _ => []
    | .ok tree => extract_expressions_from_ast tree "show" Option.none 0

/-- Dispatch on the type of the entry's third field: only a string can be
searched for `'show('`; on any other value the `in` operator raises
`TypeError`, caught by the blanket handler (a falsy non-string short-circuits
to `[]` directly). -/
def hist_source_exprs (parse : String → Except PyExc Tree) : PyVal → List String
  | .str s => hist_str_exprs parse s
  | _ => []

/-- The checks of `_try_ipython_history` on the last history entry
(show.py lines 86-90): an empty or short (malformed) tuple yields `[]`,
otherwise its third field `last_cmd[2]` is examined. -/
def hist_last_exprs (parse : String → Except PyExc Tree) (last_cmd : List PyVal) :
    List String :=
  if last_cmd.isEmpty || last_cmd.length < 3 then []
  else
    match last_cmd.get? 2 with
    | Option.none => []
    | some source => hist_source_exprs parse source

/-- The empty-history check and last-entry selection of
`_try_ipython_history` (show.py lines 82-86). -/
def try_ipython_range (parse : String → Except PyExc Tree)
    (history_range : List (List PyVal)) : List String :=
  if history_range.isEmpty then []
  else
    match history_range.getLast? with
    | Option.none => []
    | some last_cmd => hist_last_exprs parse last_cmd

/-- The body of `_try_ipython_history` once a shell with a history manager is
available (show.py lines 78-84): query the session's history range (a raised
error yields `[]`), and examine the materialised list. -/
def try_ipython_shell (parse : String → Except PyExc Tree) (sh : HistShell) :
    List String :=
  match sh.get_range sh.session_number with
  | .error _ => []
  | .ok history_range => try_ipython_range parse history_range

/-- Embedding of `_try_ipython_history` (show.py lines 60-98): a missing
IPython module, an absent shell, or a shell without a history manager yields
`[]` (show.py lines 70-76); otherwise the history is examined. -/
def try_ipython_history (parse : String → Except PyExc Tree) :
    IPythonState → List String
  | .absent => []
  | .noShell => []
  | .noHistoryManager => []
  | .shell sh => try_ipython_shell parse sh

/-! ### Source acquisition -/

/-- The `inspect`/file-system oracles `_get_source_code` consults for the
caller's frame, each able to raise: `inspect.getsourcelines(frame)` (source
lines and starting line number), `open(filename).read()`,
`inspect.getsource(frame)`, and `inspect.getsource(frame.f_code)`. -/
structure SourceEnv where
  getsourcelines : Except PyExc (List String × Int)
  read_file : Except PyExc String
  getsource_frame : Except PyExc String
  getsource_code : Except PyExc String

/-- The caller's frame as `show` inspects it: `f_code.co_filename`,
`f_lineno`, and `f_locals` (an insertion-ordered name-to-object mapping). -/
structure Frame where
  co_filename : String
  f_lineno : Int
  f_locals : List (String × Obj)

/-- A line consisting solely of spaces and tabs (ignored by `textwrap.dedent`
when computing the margin, emptied in its output). -/
def is_ws_only (s : String) : Bool :=
  s.data.all fun c => c == ' ' || c == '\t'

/-- Leading whitespace of a line. -/
def leading_ws (s : String) : List Char :=
  s.data.takeWhile fun c => c == ' ' || c == '\t'

/-- Longest common prefix of two character lists. -/
def common_indent : List Char → List Char → List Char
  | a :: as, b :: bs => if a == b then a :: common_indent as bs else []
  | _, _ => []

/-- Models `textwrap.dedent`: the margin is the common leading whitespace of
all lines with content; it is removed from every line, and whitespace-only
lines are normalised to empty lines. -/
def dedent (text : String) : String :=
  let lines := text.splitOn "\n"
  let margin : List Char :=
    match (lines.filter fun l => !is_ws_only l).map leading_ws with
    | [] => []
    | m :: ms => ms.foldl common_indent m
  String.intercalate "\n" (lines.map fun l =>
    if is_ws_only l then "" else String.mk (l.data.drop margin.length))

/-- The guard `if filename and filename != '<stdin>' and not filename.startswith('<')`
(show.py line 122): the direct file read is attempted only for a real path,
not for a synthetic placeholder name in angle brackets. -/
def real_path_filename (filename : String) : Bool :=
  !filename.data.isEmpty && filename != "<stdin>" && !str_startswith filename "<"

/-- Fourth strategy of `_get_source_code` (show.py lines 136-139):
`inspect.getsource(frame.f_code)`, catching `(OSError, TypeError)`; when it
too fails the function returns `(None, 0)`. -/
def gsc_step4 (env : SourceEnv) : Except PyExc (Option String × Int) :=
  match env.getsource_code with
  | .ok s => .ok (some s, 0)
  | .error e =>
    if e = .osError ∨ e = .typeError then .ok (Option.none, 0) else .error e

/-- Third strategy of `_get_source_code` (show.py lines 130-133):
`inspect.getsource(frame)`, catching `(OSError, TypeError)`. -/
def gsc_step3 (env : SourceEnv) : Except PyExc (Option String × Int) :=
  match env.getsource_frame with
  | .ok s => .ok (some s, 0)
  | .error e =>
    if e = .osError ∨ e = .typeError then gsc_step4 env else .error e

/-- Second strategy of `_get_source_code` (show.py lines 121-127): read the
frame's file directly when the filename is a real path, catching `OSError`. -/
def gsc_step2 (env : SourceEnv) (frame : Frame) : Except PyExc (Option String × Int) :=
  if real_path_filename frame.co_filename then
    match env.read_file with
    | .ok txt => .ok (some txt, 0)
    | .error e => if e = .osError then gsc_step3 env else .error e
  else gsc_step3 env

/-- Embedding of `_get_source_code` (show.py lines 101-141): first
`inspect.getsourcelines(frame)` — join the lines, `textwrap.dedent` them and
report offset `first_line - 1` — catching `OSError`; then the file read,
frame source and code-object source strategies in order. -/
def get_source_code (env : SourceEnv) (frame : Frame) : Except PyExc (Option String × Int) :=
  match env.getsourcelines with
  | .ok (source_lines, first_line) =>
    .ok (some (dedent (String.join source_lines)), first_line - 1)
  | .error e => if e = .osError then gsc_step2 env frame else .error e

/-! ### Value-to-name matching -/

/-- The body of `_match_variables_to_values`'s outer loop for one value
(show.py lines 155-176): first scan `local_vars` for an identity match
(`var_val is val`, i.e. equal object ids) and take the first hit; otherwise
scan for an equality match, accepted only when the value is of an elementary
immutable kind, the local's value compares equal, and the name does not start
with an underscore; otherwise the placeholder. -/
def match_one_value (val : Obj) (local_vars : List (String × Obj)) : String :=
  match local_vars.find? (fun p => p.2.id == val.id) with
  | some p => p.1
  | Option.none =>
    match local_vars.find? (fun p =>
        is_elementary val.val && pyEq p.2.val val.val && !str_startswith p.1 "_") with
    | some p => p.1
    | Option.none => "<expression>"

/-- Embedding of `_match_variables_to_values` (show.py lines 144-178). -/
def match_variables_to_values (values : List Obj) (local_vars : List (String × Obj)) :
    List String :=
  values.map fun v => match_one_value v local_vars

/-! ### The orchestrator `show` -/

/-- `show`'s return value: `values[0]` when exactly one value was passed,
otherwise the tuple of all values. -/
inductive ShowReturn where
  | single (v : Obj)
  | tuple (vs : List Obj)
deriving DecidableEq

/-- The observable outcome of one `show` call: the lines written to stdout,
in order, and the returned value. -/
structure ShowOutput where
  lines : List String
  ret : ShowReturn
deriving DecidableEq

/-- The ambient environment of one `show` call: the IPython state, the
`ast.parse` oracle (mapping a source text to its tree of call nodes, or to
the exception parsing raises), the `inspect` oracles for the caller's frame,
and Python's `repr`. -/
structure ShowEnv where
  ipython : IPythonState
  parse : String → Except PyExc Tree
  src : SourceEnv
  repr : Obj → String

/-- The `ast.parse` step of `show`'s static branch (show.py lines 234-243):
parse the recovered source and extract the expressions at the caller's line,
catching `(SyntaxError, ValueError)`; any other exception propagates. -/
def parsed_exprs (env : ShowEnv) (frame : Frame) (source : String) (lineno_offset : Int) :
    Except PyExc (List String) :=
  match env.parse source with
  | .ok tree =>
    .ok (extract_expressions_from_ast tree "show" (some frame.f_lineno) lineno_offset)
  | .error e => if e = .syntaxError ∨ e = .valueError then .ok [] else .error e

/-- The static-source branch of `show` (show.py lines 231-243): get the
caller's source and parse it; an unavailable source or a caught parse
failure yields `[]`. -/
def static_exprs (env : ShowEnv) (frame : Frame) : Except PyExc (List String) :=
  match get_source_code env.src frame with
  | .error e => .error e
  | .ok (Option.none, _) => .ok []
  | .ok (some source, lineno_offset) => parsed_exprs env frame source lineno_offset

/-- The expression-recovery cascade of `show` (show.py lines 227-247):
IPython history first; if it yielded nothing, static source extraction; if
that yielded nothing, the value-to-name matcher on the caller's locals. -/
def raw_exprs (env : ShowEnv) (frame : Frame) (values : List Obj) :
    Except PyExc (List String) :=
  if (try_ipython_history env.parse env.ipython).isEmpty then
    match static_exprs env frame with
    | .error e => .error e
    | .ok es =>
      .ok (if es.isEmpty then match_variables_to_values values frame.f_locals else es)
  else .ok (try_ipython_history env.parse env.ipython)

/-- The padding loop of `show` (show.py lines 249-251):
`while len(exprs) < len(values): exprs.append("<expression>")`. -/
def padded_exprs (env : ShowEnv) (frame : Frame) (values : List Obj) :
    Except PyExc (List String) :=
  match raw_exprs env frame values with
  | .error e => .error e
  | .ok es => .ok (es ++ List.replicate (values.length - es.length) "<expression>")

/-- The return statement of `show` (show.py lines 258-260):
`if len(values) == 1: return values[0]` else `return values`. -/
def ret_of (values : List Obj) : ShowReturn :=
  match values with
  | [v] => ShowReturn.single v
  | vs => ShowReturn.tuple vs

/-- Embedding of `show` itself (show.py lines 181-260); named `show_py`
because `show` is a reserved word in Lean.  It prints
`f"{expr} = {val!r}"` for each `zip(exprs, values)` pair and returns the
single value or the tuple of values. -/
def show_py (env : ShowEnv) (frame : Frame) (values : List Obj) :
    Except PyExc ShowOutput :=
  match padded_exprs env frame values with
  | .error e => .error e
  | .ok exprs =>
    .ok { lines := (exprs.zip values).map fun p => p.1 ++ " = " ++ env.repr p.2
          ret := ret_of values }

end ShowPy

namespace ShowPy

/-! ### Generic helper lemmas -/

/-- A `find?` hit at the first index satisfying the predicate. -/
theorem find?_eq_get_of_first {α : Type} (p : α → Bool) (l : List α) :
    ∀ (i : Nat) (hi : i < l.length), p (l.get ⟨i, hi⟩) = true →
      (∀ (j : Nat) (hj : j < i), p (l.get ⟨j, Nat.lt_trans hj hi⟩) = false) →
      l.find? p = some (l.get ⟨i, hi⟩) := by
  induction l with
  | nil => intro i hi _ _; exact absurd hi (by simp)
  | cons a l ih =>
    intro i hi hp hf
    cases i with
    | zero => exact List.find?_cons_of_pos l hp
    | succ k =>
      have ha : p a = false := hf 0 (Nat.succ_pos k)
      rw [List.find?_cons_of_neg l (by simp [ha])]
      exact ih k (Nat.lt_of_succ_lt_succ hi) hp
        (fun j hj => hf (j + 1) (Nat.succ_lt_succ hj))

end ShowPy

namespace ShowPy

/-! ### Lemmas about the value-to-name matcher -/

/-- Every name the matcher produces for a value is either the name of one of
the caller's locals or the fixed placeholder. -/
theorem match_one_value_range (val : Obj) (locals : List (String × Obj)) :
    match_one_value val locals ∈ locals.map Prod.fst ∨
      match_one_value val locals = "<expression>" := by
  unfold match_one_value
  cases h1 : locals.find? (fun p => p.2.id == val.id) with
  | some p =>
    exact Or.inl (List.mem_map_of_mem Prod.fst (List.mem_of_find?_eq_some h1))
  | none =>
    cases h2 : locals.find? (fun p =>
        is_elementary val.val && pyEq p.2.val val.val && !str_startswith p.1 "_") with
    | some p =>
      exact Or.inl (List.mem_map_of_mem Prod.fst (List.mem_of_find?_eq_some h2))
    | none => exact Or.inr rfl

/-- The matcher produces exactly one name per value. -/
theorem match_variables_to_values_length (values : List Obj) (locals : List (String × Obj)) :
    (match_variables_to_values values locals).length = values.length := by
  unfold match_variables_to_values
  exact List.length_map values _

end ShowPy

namespace ShowPy

/-- Claim C4: for every value and every local-variable mapping, if some local
is bound to the exact same object instance (same identity) as the value, the
matcher reports the first such name in the mapping's iteration order — with
no hypothesis about equality matches, so an earlier merely-equal local cannot
displace it: the identity pass takes precedence over the equality pass. -/
theorem identity_precedence (val : Obj) (locals : List (String × Obj)) (i : Nat)
    (hi : i < locals.length)
    (hid : (locals.get ⟨i, hi⟩).2.id = val.id)
    (hfirst : ∀ (j : Nat) (hj : j < i), (locals.get ⟨j, Nat.lt_trans hj hi⟩).2.id ≠ val.id) :
    match_one_value val locals = (locals.get ⟨i, hi⟩).1 ∧
    match_variables_to_values [val] locals = [(locals.get ⟨i, hi⟩).1] := by
  have hfind : locals.find? (fun p => p.2.id == val.id) = some (locals.get ⟨i, hi⟩) :=
    find?_eq_get_of_first _ locals i hi (by simpa using hid)
      (fun j hj => by simpa using hfirst j hj)
  have h1 : match_one_value val locals = (locals.get ⟨i, hi⟩).1 := by
    unfold match_one_value
    rw [hfind]
  exact ⟨h1, by simp [match_variables_to_values, h1]⟩

/-- Witness for C4: the value is the same object (id 2) as the local `idn`,
while the earlier local `eq` is merely equal to it (same value, different
id); the matcher reports `idn`. -/
theorem identity_precedence_witness :
    match_one_value ⟨2, .int 7⟩ [("eq", ⟨1, .int 7⟩), ("idn", ⟨2, .int 7⟩)] = "idn" ∧
    match_variables_to_values [⟨2, .int 7⟩] [("eq", ⟨1, .int 7⟩), ("idn", ⟨2, .int 7⟩)] = ["idn"] :=
  identity_precedence ⟨2, .int 7⟩ [("eq", ⟨1, .int 7⟩), ("idn", ⟨2, .int 7⟩)] 1
    (by decide) (by decide) (by decide)

/-- Claim C5: when no local has the value's identity, a name is selected by
the equality pass only when the value is of an elementary immutable kind,
the local's value compares equal, and the name does not start with an
underscore; a value failing those conditions (not elementary, or no
qualifying local) receives the placeholder, and an underscore-prefixed local
is never the reported equality-fallback name. -/
theorem equality_pass_conditions (val : Obj) (locals : List (String × Obj))
    (hnoid : ∀ p ∈ locals, p.2.id ≠ val.id) :
    (is_elementary val.val = false → match_one_value val locals = "<expression>") ∧
    ((∀ p ∈ locals, ¬(is_elementary val.val = true ∧ pyEq p.2.val val.val = true ∧
        str_startswith p.1 "_" = false)) → match_one_value val locals = "<expression>") ∧
    (∀ name, match_one_value val locals = name → name ≠ "<expression>" →
      ∃ w, (name, w) ∈ locals ∧ is_elementary val.val = true ∧
        pyEq w.val val.val = true ∧ str_startswith name "_" = false) := by
  have hfind1 : locals.find? (fun p => p.2.id == val.id) = Option.none :=
    List.find?_eq_none.mpr (fun p hp => by simp [hnoid p hp])
  refine ⟨?_, ?_, ?_⟩
  · intro helem
    unfold match_one_value
    rw [hfind1]
    have : locals.find? (fun p =>
        is_elementary val.val && pyEq p.2.val val.val && !str_startswith p.1 "_") =
        Option.none :=
      List.find?_eq_none.mpr (fun p _ => by simp [helem])
    rw [this]
  · intro hall
    unfold match_one_value
    rw [hfind1]
    have : locals.find? (fun p =>
        is_elementary val.val && pyEq p.2.val val.val && !str_startswith p.1 "_") =
        Option.none := by
      refine List.find?_eq_none.mpr (fun p hp => ?_)
      intro hpred
      apply hall p hp
      simp only [Bool.and_eq_true, Bool.not_eq_true'] at hpred
      exact ⟨hpred.1.1, hpred.1.2, hpred.2⟩
    rw [this]
  · intro name hname hne
    unfold match_one_value at hname
    rw [hfind1] at hname
    cases h2 : locals.find? (fun p =>
        is_elementary val.val && pyEq p.2.val val.val && !str_startswith p.1 "_") with
    | none => rw [h2] at hname; exact absurd hname.symm hne
    | some p =>
      rw [h2] at hname
      have hmem := List.mem_of_find?_eq_some h2
      have hpred := List.find?_some h2
      simp only [Bool.and_eq_true, Bool.not_eq_true'] at hpred
      refine ⟨p.2, ?_, hpred.1.1, hpred.1.2, ?_⟩
      · rw [← hname]
        simpa using hmem
      · rw [← hname]
        exact hpred.2

/-- Witness for C5: the value (id 5, int 1) shares no identity with the
locals; the underscore local `_a` is equal but skipped, so `b` is reported,
and the reported name satisfies all the equality-pass conditions. -/
theorem equality_pass_conditions_witness :
    (∀ p ∈ [("_a", (⟨1, .int 1⟩ : Obj)), ("b", ⟨2, .int 1⟩)], p.2.id ≠ (5 : Nat)) ∧
    (∀ name, match_one_value ⟨5, .int 1⟩ [("_a", ⟨1, .int 1⟩), ("b", ⟨2, .int 1⟩)] = name →
      name ≠ "<expression>" →
      ∃ w, (name, w) ∈ [("_a", (⟨1, .int 1⟩ : Obj)), ("b", ⟨2, .int 1⟩)] ∧
        is_elementary (PyVal.int 1) = true ∧ pyEq w.val (PyVal.int 1) = true ∧
        str_startswith name "_" = false) :=
  ⟨by decide,
   (equality_pass_conditions ⟨5, .int 1⟩ [("_a", ⟨1, .int 1⟩), ("b", ⟨2, .int 1⟩)]
     (by decide)).2.2⟩

/-- Claim C9 (implicit): the identity pass scans all locals including
underscore-prefixed ones — here the local `_hidden` is bound to the identical
object (id 7) and is reported, even though the non-underscore local `visible`
holds an equal value; the underscore exclusion applies only to the equality
pass. -/
theorem underscore_identity_match :
    match_variables_to_values [⟨7, .int 3⟩]
      [("_hidden", ⟨7, .int 3⟩), ("visible", ⟨9, .int 3⟩)] = ["_hidden"] ∧
    match_one_value ⟨7, .int 3⟩
      [("_hidden", ⟨7, .int 3⟩), ("visible", ⟨9, .int 3⟩)] = "_hidden" := by
  constructor
  · decide
  · decide

end ShowPy

namespace ShowPy

/-! ### Lemmas about the expression extractor -/

/-- Provenance of a recovered argument text: it is the stripped source
segment of one of the call's positional arguments. -/
theorem mem_recoverable_args (node : CallNode) (lab : String)
    (h : lab ∈ recoverable_args node) :
    ∃ a ∈ node.args, ∃ s, a.segment = some s ∧ lab = str_strip s := by
  unfold recoverable_args at h
  rcases List.mem_filterMap.mp h with ⟨a, ha, hf⟩
  cases hseg : a.segment with
  | none => rw [hseg] at hf; cases hf
  | some s =>
    rw [hseg] at hf
    by_cases he : s.data.isEmpty = true
    · simp [he] at hf
    · change (if s.data.isEmpty = true then Option.none else some (str_strip s)) = some lab at hf
      rw [if_neg he] at hf
      exact ⟨a, ha, s, hseg, (Option.some.inj hf).symm⟩

/-- Any string produced by the extraction loop comes from its accumulator or
from the recoverable arguments of one of the walked call nodes. -/
theorem mem_extract_loop (tf : String) (tl : Option Int) (off : Int) :
    ∀ (l : List CallNode) (acc : List String) (lab : String),
      lab ∈ extract_loop tf tl off l acc →
      lab ∈ acc ∨ ∃ node ∈ l, lab ∈ recoverable_args node := by
  intro l
  induction l with
  | nil =>
    intro acc lab h
    exact Or.inl h
  | cons node rest ih =>
    intro acc lab h
    unfold extract_loop at h
    by_cases hm : (call_name_matches tf node && call_line_matches tl off node) = true
    · rw [if_pos hm] at h
      by_cases he : (acc ++ recoverable_args node).isEmpty = true
      · rw [if_pos he] at h
        rcases ih _ _ h with h1 | ⟨n, hn, hlab⟩
        · rcases List.mem_append.mp h1 with h2 | h2
          · exact Or.inl h2
          · exact Or.inr ⟨node, by simp, h2⟩
        · exact Or.inr ⟨n, by simp [hn], hlab⟩
      · rw [if_neg he] at h
        rcases List.mem_append.mp h with h2 | h2
        · exact Or.inl h2
        · exact Or.inr ⟨node, by simp, h2⟩
    · rw [if_neg hm] at h
      rcases ih _ _ h with h1 | ⟨n, hn, hlab⟩
      · exact Or.inl h1
      · exact Or.inr ⟨n, by simp [hn], hlab⟩

/-- Any string the extractor returns is the stripped source segment of a
positional argument of some call node of the tree. -/
theorem mem_extract_expressions (tree : Tree) (tf : String) (tl : Option Int) (off : Int)
    (lab : String) (h : lab ∈ extract_expressions_from_ast tree tf tl off) :
    ∃ node ∈ tree, ∃ a ∈ node.args, ∃ s, a.segment = some s ∧ lab = str_strip s := by
  rcases mem_extract_loop tf tl off tree [] lab h with h1 | ⟨node, hn, hlab⟩
  · cases h1
  · exact ⟨node, hn, mem_recoverable_args node lab hlab⟩

/-- The extraction loop yields nothing when every walked node fails the name
test, fails the line test, or has no recoverable argument text. -/
theorem extract_loop_all_skip (tf : String) (tl : Option Int) (off : Int) :
    ∀ l : List CallNode,
      (∀ n ∈ l, call_name_matches tf n = false ∨ call_line_matches tl off n = false ∨
        recoverable_args n = []) →
      extract_loop tf tl off l [] = [] := by
  intro l
  induction l with
  | nil => intro _; rfl
  | cons node rest ih =>
    intro h
    have hrest : extract_loop tf tl off rest [] = [] :=
      ih (fun n hn => h n (List.mem_cons_of_mem node hn))
    unfold extract_loop
    rcases h node (List.mem_cons_self _ _) with h1 | h1 | h1
    · simp [h1, hrest]
    · simp [h1, hrest]
    · by_cases hm : (call_name_matches tf node && call_line_matches tl off node) = true
      · simp [hm, h1, hrest]
      · simp [hm, hrest]

/-- The extraction loop returns the recoverable argument texts of the first
matching call node that has any, skipping earlier nodes that do not match or
contribute nothing. -/
theorem extract_loop_first (tf : String) (tl : Option Int) (off : Int) (node : CallNode)
    (post : List CallNode)
    (hname : call_name_matches tf node = true)
    (hline : call_line_matches tl off node = true)
    (hargs : recoverable_args node ≠ []) :
    ∀ pre : List CallNode,
      (∀ n ∈ pre, call_name_matches tf n = false ∨ call_line_matches tl off n = false ∨
        recoverable_args n = []) →
      extract_loop tf tl off (pre ++ node :: post) [] = recoverable_args node := by
  intro pre
  induction pre with
  | nil =>
    intro _
    unfold extract_loop
    have hne : (([] : List String) ++ recoverable_args node).isEmpty = false := by
      simpa [List.isEmpty_iff] using hargs
    simp [hname, hline, hne]
    intro h1
    exact absurd h1 hargs
  | cons n pre ih =>
    intro h
    have htail := ih (fun m hm => h m (List.mem_cons_of_mem n hm))
    rw [List.cons_append]
    unfold extract_loop
    rcases h n (List.mem_cons_self _ _) with h1 | h1 | h1
    · simp [h1, htail]
    · simp [h1, htail]
    · by_cases hm : (call_name_matches tf n && call_line_matches tl off n) = true
      · simp [hm, h1, htail]
      · simp [hm, htail]

end ShowPy

namespace ShowPy

/-- Claim C8: the extractor returns the stripped source texts, in argument
order, of the positional arguments of the call to the target function found
on the target line (after offset correction) — or of the first matching call
in tree traversal order when no target line is given, since the line test is
then vacuous — and it returns an empty list, never an error, when no call
matches or when no matching call has any recoverable argument text. -/
theorem extractor_contract (tf : String) (tl : Option Int) (off : Int) :
    (∀ tree : Tree,
      (∀ n ∈ tree, call_name_matches tf n = false ∨ call_line_matches tl off n = false) →
      extract_expressions_from_ast tree tf tl off = []) ∧
    (∀ tree : Tree,
      (∀ n ∈ tree, recoverable_args n = []) →
      extract_expressions_from_ast tree tf tl off = []) ∧
    (∀ (pre post : List CallNode) (node : CallNode),
      (∀ n ∈ pre, call_name_matches tf n = false ∨ call_line_matches tl off n = false ∨
        recoverable_args n = []) →
      call_name_matches tf node = true → call_line_matches tl off node = true →
      recoverable_args node ≠ [] →
      extract_expressions_from_ast (pre ++ node :: post) tf tl off =
        recoverable_args node) := by
  refine ⟨?_, ?_, ?_⟩
  · intro tree h
    exact extract_loop_all_skip tf tl off tree
      (fun n hn => (h n hn).imp id Or.inl)
  · intro tree h
    exact extract_loop_all_skip tf tl off tree
      (fun n hn => Or.inr (Or.inr (h n hn)))
  · intro pre post node hpre hname hline hargs
    exact extract_loop_first tf tl off node post hname hline hargs pre hpre

/-- Witness for C8: in a tree holding a non-matching call (wrong name), a
matching call on the wrong line, and the target-line call `show(x + y, z)`,
the extractor returns exactly that call's stripped argument texts. -/
theorem extractor_contract_witness :
    extract_expressions_from_ast
      [{ func := FuncKind.name "print", lineno := 5, args := [{ segment := some "q" }] },
       { func := FuncKind.name "show", lineno := 2, args := [{ segment := some "w" }] },
       { func := FuncKind.name "show", lineno := 5, args := [{ segment := some " x + y " }, { segment := some "z" }] }]
      "show" (some 5) 0 =
    recoverable_args
      { func := FuncKind.name "show", lineno := 5, args := [{ segment := some " x + y " }, { segment := some "z" }] } :=
  (extractor_contract "show" (some 5) 0).2.2
    [{ func := FuncKind.name "print", lineno := 5, args := [{ segment := some "q" }] },
     { func := FuncKind.name "show", lineno := 2, args := [{ segment := some "w" }] }]
    []
    { func := FuncKind.name "show", lineno := 5, args := [{ segment := some " x + y " }, { segment := some "z" }] }
    (by decide) (by decide) (by decide) (by decide)

/-- Claim C10 (implicit): `_get_function_name` matches through attribute
access as well as plain names, so a method call `obj.show(x)` on the target
line is treated as the matching call and its argument text is extracted. -/
theorem attr_call_extraction :
    get_function_name
      { func := FuncKind.attr "show", lineno := 3, args := [{ segment := some "x" }] } =
      some "show" ∧
    extract_expressions_from_ast
      [{ func := FuncKind.attr "show", lineno := 3, args := [{ segment := some "x" }] }]
      "show" (some 3) 0 = ["x"] := by
  exact ⟨rfl, by decide⟩

end ShowPy

namespace ShowPy

/-! ### Lemmas about the history and static-source strategies -/

/-- A label is source-derived: it is the stripped segment of a positional
argument of a call node in a tree that `ast.parse` produced from some source
text. -/
def is_parsed_segment_label (parse : String → Except PyExc Tree) (lab : String) : Prop :=
  ∃ src tree, parse src = .ok tree ∧ ∃ node ∈ tree, ∃ a ∈ node.args, ∃ s,
    a.segment = some s ∧ lab = str_strip s

/-- The string-entry step either yields nothing or hands a successfully
parsed history line to the extractor. -/
theorem hist_str_exprs_cases (parse : String → Except PyExc Tree) (s : String) :
    hist_str_exprs parse s = [] ∨
    ∃ src tree, parse src = .ok tree ∧
      hist_str_exprs parse s = extract_expressions_from_ast tree "show" Option.none 0 := by
  unfold hist_str_exprs
  by_cases hc : (!pyTruthy (.str s) || !contains_substr s "show(") = true
  · rw [if_pos hc]
    exact Or.inl rfl
  · rw [if_neg hc]
    cases hP : parse s with
    | error e => exact Or.inl rfl
    | ok tree => exact Or.inr ⟨s, tree, hP, rfl⟩

/-- The third-field step either yields nothing or hands a successfully
parsed history line to the extractor. -/
theorem hist_source_exprs_cases (parse : String → Except PyExc Tree) (source : PyVal) :
    hist_source_exprs parse source = [] ∨
    ∃ src tree, parse src = .ok tree ∧
      hist_source_exprs parse source = extract_expressions_from_ast tree "show" Option.none 0 := by
  cases source with
  | str s => exact hist_str_exprs_cases parse s
  | int n => exact Or.inl rfl
  | float q => exact Or.inl rfl
  | bool b => exact Or.inl rfl
  | none => exact Or.inl rfl
  | other t => exact Or.inl rfl

/-- The malformed-entry checks either yield nothing or defer to the
third-field step. -/
theorem hist_last_exprs_cases (parse : String → Except PyExc Tree) (last_cmd : List PyVal) :
    hist_last_exprs parse last_cmd = [] ∨
    ∃ src tree, parse src = .ok tree ∧
      hist_last_exprs parse last_cmd = extract_expressions_from_ast tree "show" Option.none 0 := by
  unfold hist_last_exprs
  by_cases hc : (last_cmd.isEmpty || decide (last_cmd.length < 3)) = true
  · rw [if_pos hc]
    exact Or.inl rfl
  · rw [if_neg hc]
    cases last_cmd.get? 2 with
    | none => exact Or.inl rfl
    | some source => exact hist_source_exprs_cases parse source

/-- The history-range step either yields nothing or hands a successfully
parsed history line to the extractor. -/
theorem try_ipython_range_cases (parse : String → Except PyExc Tree)
    (history_range : List (List PyVal)) :
    try_ipython_range parse history_range = [] ∨
    ∃ src tree, parse src = .ok tree ∧
      try_ipython_range parse history_range =
        extract_expressions_from_ast tree "show" Option.none 0 := by
  unfold try_ipython_range
  by_cases h1 : history_range.isEmpty = true
  · rw [if_pos h1]
    exact Or.inl rfl
  · rw [if_neg h1]
    cases history_range.getLast? with
    | none => exact Or.inl rfl
    | some last_cmd => exact hist_last_exprs_cases parse last_cmd

/-- The shell branch either yields nothing or hands a successfully parsed
history line to the extractor. -/
theorem try_ipython_shell_cases (parse : String → Except PyExc Tree) (sh : HistShell) :
    try_ipython_shell parse sh = [] ∨
    ∃ src tree, parse src = .ok tree ∧
      try_ipython_shell parse sh = extract_expressions_from_ast tree "show" Option.none 0 := by
  unfold try_ipython_shell
  cases sh.get_range sh.session_number with
  | error e => exact Or.inl rfl
  | ok history_range =>
    rcases try_ipython_range_cases parse history_range with h | ⟨src, tree, hp, h⟩
    · exact Or.inl h
    · exact Or.inr ⟨src, tree, hp, h⟩

/-- `_try_ipython_history` either yields nothing or hands a successfully
parsed history line to the extractor. -/
theorem try_ipython_history_cases (parse : String → Except PyExc Tree) (st : IPythonState) :
    try_ipython_history parse st = [] ∨
    ∃ src tree, parse src = .ok tree ∧
      try_ipython_history parse st = extract_expressions_from_ast tree "show" Option.none 0 := by
  cases st with
  | absent => exact Or.inl rfl
  | noShell => exact Or.inl rfl
  | noHistoryManager => exact Or.inl rfl
  | shell sh => exact try_ipython_shell_cases parse sh

/-- Every label the history strategy yields is source-derived. -/
theorem mem_try_ipython_history (parse : String → Except PyExc Tree) (st : IPythonState)
    (lab : String) (h : lab ∈ try_ipython_history parse st) :
    is_parsed_segment_label parse lab := by
  rcases try_ipython_history_cases parse st with he | ⟨s, tree, hp, he⟩
  · rw [he] at h
    cases h
  · rw [he] at h
    rcases mem_extract_expressions tree "show" Option.none 0 lab h with ⟨node, hn, rest⟩
    exact ⟨s, tree, hp, node, hn, rest⟩

/-- The parse step of the static strategy: a parse success goes to the
extractor, a caught parse failure yields nothing, any other error
propagates. -/
theorem parsed_exprs_cases (env : ShowEnv) (frame : Frame) (source : String) (off : Int) :
    parsed_exprs env frame source off = .ok [] ∨
    (∃ e, env.parse source = .error e ∧ ¬(e = PyExc.syntaxError ∨ e = PyExc.valueError) ∧
      parsed_exprs env frame source off = .error e) ∨
    ∃ tree, env.parse source = .ok tree ∧
      parsed_exprs env frame source off =
        .ok (extract_expressions_from_ast tree "show" (some frame.f_lineno) off) := by
  unfold parsed_exprs
  cases hp : env.parse source with
  | ok tree => exact Or.inr (Or.inr ⟨tree, rfl, rfl⟩)
  | error e =>
    by_cases hc : e = PyExc.syntaxError ∨ e = PyExc.valueError
    · exact Or.inl (by simp [hc])
    · exact Or.inr (Or.inl ⟨e, rfl, hc, by simp [hc]⟩)

/-- The static strategy either yields nothing or hands the successfully
parsed caller source to the extractor at the caller's line. -/
theorem static_exprs_cases (env : ShowEnv) (frame : Frame) (es : List String)
    (h : static_exprs env frame = .ok es) :
    es = [] ∨ ∃ source tree off, env.parse source = .ok tree ∧
      es = extract_expressions_from_ast tree "show" (some frame.f_lineno) off := by
  unfold static_exprs at h
  cases hg : get_source_code env.src frame with
  | error e =>
    rw [hg] at h
    have h2 : (Except.error e : Except PyExc (List String)) = Except.ok es := h
    cases h2
  | ok p =>
    obtain ⟨src?, off⟩ := p
    rw [hg] at h
    cases src? with
    | none =>
      have h2 : (Except.ok [] : Except PyExc (List String)) = Except.ok es := h
      exact Or.inl (Except.ok.inj h2).symm
    | some source =>
      have h2 : parsed_exprs env frame source off = Except.ok es := h
      rcases parsed_exprs_cases env frame source off with hc | ⟨e, hpe, hnc, hc⟩ | ⟨tree, hp, hc⟩
      · rw [hc] at h2
        exact Or.inl (Except.ok.inj h2).symm
      · rw [hc] at h2
        cases h2
      · rw [hc] at h2
        exact Or.inr ⟨source, tree, off, hp, (Except.ok.inj h2).symm⟩

/-- Every label the static strategy yields is source-derived. -/
theorem mem_static_exprs (env : ShowEnv) (frame : Frame) (es : List String)
    (h : static_exprs env frame = .ok es) (lab : String) (hm : lab ∈ es) :
    is_parsed_segment_label env.parse lab := by
  rcases static_exprs_cases env frame es h with he | ⟨source, tree, off, hp, he⟩
  · rw [he] at hm
    cases hm
  · rw [he] at hm
    rcases mem_extract_expressions tree "show" (some frame.f_lineno) off lab hm with
      ⟨node, hn, rest⟩
    exact ⟨source, tree, hp, node, hn, rest⟩

end ShowPy

namespace ShowPy

/-! ### Lemmas about the orchestrator -/

/-- Every name the matcher produces is a local's name or the placeholder. -/
theorem mem_match_variables (values : List Obj) (locals : List (String × Obj)) (lab : String)
    (hm : lab ∈ match_variables_to_values values locals) :
    lab ∈ locals.map Prod.fst ∨ lab = "<expression>" := by
  unfold match_variables_to_values at hm
  rcases List.mem_map.mp hm with ⟨v, hv, hlab⟩
  rcases match_one_value_range v locals with h | h
  · exact Or.inl (hlab ▸ h)
  · exact Or.inr (hlab ▸ h)

/-- Every label the recovery cascade yields is source-derived, a local's
name, or the placeholder. -/
theorem raw_exprs_provenance (env : ShowEnv) (frame : Frame) (values : List Obj)
    (es : List String) (h : raw_exprs env frame values = .ok es)
    (lab : String) (hm : lab ∈ es) :
    is_parsed_segment_label env.parse lab ∨ lab ∈ frame.f_locals.map Prod.fst ∨
      lab = "<expression>" := by
  unfold raw_exprs at h
  by_cases hh : (try_ipython_history env.parse env.ipython).isEmpty = true
  · rw [if_pos hh] at h
    cases hs : static_exprs env frame with
    | error e =>
      rw [hs] at h
      have h2 : (Except.error e : Except PyExc (List String)) = Except.ok es := h
      cases h2
    | ok es0 =>
      rw [hs] at h
      have h2 : (Except.ok (if es0.isEmpty then
          match_variables_to_values values frame.f_locals else es0) :
          Except PyExc (List String)) = Except.ok es := h
      have hes := Except.ok.inj h2
      by_cases he0 : es0.isEmpty = true
      · rw [if_pos he0] at hes
        rw [← hes] at hm
        exact Or.inr (mem_match_variables values frame.f_locals lab hm)
      · rw [if_neg he0] at hes
        rw [← hes] at hm
        exact Or.inl (mem_static_exprs env frame es0 hs lab hm)
  · rw [if_neg hh] at h
    have hes := Except.ok.inj h
    rw [← hes] at hm
    exact Or.inl (mem_try_ipython_history env.parse env.ipython lab hm)

/-- Padding appends exactly the placeholders the while-loop would. -/
theorem padded_exprs_eq (env : ShowEnv) (frame : Frame) (values : List Obj)
    (es : List String) (h : raw_exprs env frame values = .ok es) :
    padded_exprs env frame values =
      .ok (es ++ List.replicate (values.length - es.length) "<expression>") := by
  unfold padded_exprs
  rw [h]

/-- Inversion for the padding step. -/
theorem padded_exprs_inv (env : ShowEnv) (frame : Frame) (values : List Obj)
    (exprs : List String) (h : padded_exprs env frame values = .ok exprs) :
    ∃ es, raw_exprs env frame values = .ok es ∧
      exprs = es ++ List.replicate (values.length - es.length) "<expression>" := by
  unfold padded_exprs at h
  cases hr : raw_exprs env frame values with
  | error e =>
    rw [hr] at h
    have h2 : (Except.error e : Except PyExc (List String)) = Except.ok exprs := h
    cases h2
  | ok es =>
    rw [hr] at h
    have h2 : (Except.ok (es ++ List.replicate (values.length - es.length) "<expression>") :
        Except PyExc (List String)) = Except.ok exprs := h
    exact ⟨es, rfl, (Except.ok.inj h2).symm⟩

/-- Forward evaluation of `show` from a successful padding step. -/
theorem show_py_eq (env : ShowEnv) (frame : Frame) (values : List Obj)
    (exprs : List String) (h : padded_exprs env frame values = .ok exprs) :
    show_py env frame values = .ok
      { lines := (exprs.zip values).map fun p => p.1 ++ " = " ++ env.repr p.2
        ret := ret_of values } := by
  unfold show_py
  rw [h]

/-- Inversion for `show`: a successful run determines the printed lines and
the returned value from the padded expression list. -/
theorem show_py_inv (env : ShowEnv) (frame : Frame) (values : List Obj)
    (out : ShowOutput) (h : show_py env frame values = .ok out) :
    ∃ exprs, padded_exprs env frame values = .ok exprs ∧
      out.lines = (exprs.zip values).map (fun p => p.1 ++ " = " ++ env.repr p.2) ∧
      out.ret = ret_of values := by
  unfold show_py at h
  cases hp : padded_exprs env frame values with
  | error e =>
    rw [hp] at h
    have h2 : (Except.error e : Except PyExc ShowOutput) = Except.ok out := h
    cases h2
  | ok exprs =>
    rw [hp] at h
    have h2 : (Except.ok
        { lines := (exprs.zip values).map fun p => p.1 ++ " = " ++ env.repr p.2
          ret := ret_of values } : Except PyExc ShowOutput) = Except.ok out := h
    have h3 := Except.ok.inj h2
    exact ⟨exprs, rfl, by rw [← h3], by rw [← h3]⟩

end ShowPy

namespace ShowPy

/-! ### Concrete fixtures used by witnesses -/

/-- A source environment where every `inspect`/file oracle raises the
`OSError` it raises when no source is available. -/
def trivialSourceEnv : SourceEnv :=
  { getsourcelines := .error .osError
    read_file := .error .osError
    getsource_frame := .error .osError
    getsource_code := .error .osError }

/-- An `ast.parse` oracle that always raises `SyntaxError`. -/
def failParse : String → Except PyExc Tree := fun _ => .error .syntaxError

/-- A REPL-like environment: no IPython, no recoverable source, and a
`repr` that renders every object as `0`. -/
def trivialEnv : ShowEnv :=
  { ipython := .absent
    parse := failParse
    src := trivialSourceEnv
    repr := fun _ => "0" }

/-- A caller frame at `<stdin>` line 1 whose only local is `x`, bound to the
object with identity 1 holding the int 5. -/
def frame1 : Frame :=
  { co_filename := "<stdin>", f_lineno := 1, f_locals := [("x", ⟨1, .int 5⟩)] }

/-- A source environment whose `inspect.getsourcelines` succeeds. -/
def gslSourceEnv : SourceEnv :=
  { getsourcelines := .ok (["pass\n"], 1)
    read_file := .error .osError
    getsource_frame := .error .osError
    getsource_code := .error .osError }

/-! ### Claims about the orchestrator -/

/-- Claim C1: for every call to `show`, a single value is returned itself
unchanged (the same object); two or more values are returned as a tuple in
their original order; and with zero values no lines are printed and an empty
tuple is returned. -/
theorem show_return_contract (env : ShowEnv) (frame : Frame) (values : List Obj)
    (out : ShowOutput) (h : show_py env frame values = .ok out) :
    (∀ v, values = [v] → out.ret = ShowReturn.single v) ∧
    (2 ≤ values.length → out.ret = ShowReturn.tuple values) ∧
    (values = [] → out.lines = [] ∧ out.ret = ShowReturn.tuple []) := by
  rcases show_py_inv env frame values out h with ⟨exprs, hp, hlines, hret⟩
  refine ⟨?_, ?_, ?_⟩
  · intro v hv
    subst hv
    rw [hret]
    rfl
  · intro hlen
    rw [hret]
    cases values with
    | nil => rfl
    | cons a t =>
      cases t with
      | nil => simp at hlen
      | cons b t2 => rfl
  · intro hv
    subst hv
    constructor
    · rw [hlines]
      simp
    · rw [hret]
      rfl

/-- Witness for C1: in a REPL-like environment, `show(x)` with the single
object `x` prints one line and returns that very object. -/
theorem show_return_contract_witness :
    show_py trivialEnv frame1 [⟨1, .int 5⟩] =
      .ok { lines := ["x = 0"], ret := .single ⟨1, .int 5⟩ } ∧
    ({ lines := ["x = 0"], ret := .single ⟨1, .int 5⟩ } : ShowOutput).ret =
      ShowReturn.single ⟨1, .int 5⟩ :=
  ⟨rfl,
   (show_return_contract trivialEnv frame1 [⟨1, .int 5⟩]
      { lines := ["x = 0"], ret := .single ⟨1, .int 5⟩ } rfl).1 ⟨1, .int 5⟩ rfl⟩

/-- Claim C3: every successful call prints exactly one line per value —
whatever the strategies produced, the padding loop fills any shortfall with
the placeholder, and `zip` drops any excess. -/
theorem show_line_count (env : ShowEnv) (frame : Frame) (values : List Obj)
    (out : ShowOutput) (h : show_py env frame values = .ok out) :
    out.lines.length = values.length ∧
    ∀ es, raw_exprs env frame values = .ok es →
      padded_exprs env frame values =
        .ok (es ++ List.replicate (values.length - es.length) "<expression>") := by
  rcases show_py_inv env frame values out h with ⟨exprs, hp, hlines, hret⟩
  constructor
  · rcases padded_exprs_inv env frame values exprs hp with ⟨es, hr, he⟩
    rw [hlines, he]
    simp [List.length_zip]
    omega
  · intro es hr
    exact padded_exprs_eq env frame values es hr

/-- Witness for C3: two values, one matched local — two lines printed. -/
theorem show_line_count_witness :
    show_py trivialEnv frame1 [⟨2, .other 0⟩, ⟨1, .int 5⟩] =
      .ok { lines := ["<expression> = 0", "x = 0"]
            ret := .tuple [⟨2, .other 0⟩, ⟨1, .int 5⟩] } ∧
    ({ lines := ["<expression> = 0", "x = 0"]
       ret := .tuple [⟨2, .other 0⟩, ⟨1, .int 5⟩] } : ShowOutput).lines.length =
      ([⟨2, .other 0⟩, ⟨1, .int 5⟩] : List Obj).length :=
  ⟨rfl,
   (show_line_count trivialEnv frame1 [⟨2, .other 0⟩, ⟨1, .int 5⟩]
      { lines := ["<expression> = 0", "x = 0"]
        ret := .tuple [⟨2, .other 0⟩, ⟨1, .int 5⟩] } rfl).1⟩

/-- Claim C2: every printed line has the exact form `label = repr(value)`,
one line per value in argument order, and each label is a recovered
expression text (a stripped source segment from a parsed call), a matched
local-variable name, or the literal placeholder token. -/
theorem show_line_format (env : ShowEnv) (frame : Frame) (values : List Obj)
    (out : ShowOutput) (h : show_py env frame values = .ok out) :
    ∃ exprs : List String, values.length ≤ exprs.length ∧
      (∀ lab ∈ exprs, is_parsed_segment_label env.parse lab ∨
        lab ∈ frame.f_locals.map Prod.fst ∨ lab = "<expression>") ∧
      out.lines = (exprs.zip values).map fun p => p.1 ++ " = " ++ env.repr p.2 := by
  rcases show_py_inv env frame values out h with ⟨exprs, hp, hlines, hret⟩
  rcases padded_exprs_inv env frame values exprs hp with ⟨es, hr, he⟩
  refine ⟨exprs, ?_, ?_, hlines⟩
  · rw [he]
    simp
    omega
  · intro lab hm
    rw [he] at hm
    rcases List.mem_append.mp hm with hm1 | hm1
    · exact raw_exprs_provenance env frame values es hr lab hm1
    · exact Or.inr (Or.inr (List.eq_of_mem_replicate hm1))

/-- Witness for C2: the single printed line of the C1 scenario is
`x = 0` — the matched name `x`, an equals sign, and the value's repr. -/
theorem show_line_format_witness :
    ∃ exprs : List String, ([⟨1, .int 5⟩] : List Obj).length ≤ exprs.length ∧
      (∀ lab ∈ exprs, is_parsed_segment_label trivialEnv.parse lab ∨
        lab ∈ frame1.f_locals.map Prod.fst ∨ lab = "<expression>") ∧
      ({ lines := ["x = 0"], ret := .single ⟨1, .int 5⟩ } : ShowOutput).lines =
        (exprs.zip [⟨1, .int 5⟩]).map fun p => p.1 ++ " = " ++ trivialEnv.repr p.2 :=
  show_line_format trivialEnv frame1 [⟨1, .int 5⟩]
    { lines := ["x = 0"], ret := .single ⟨1, .int 5⟩ } rfl

end ShowPy

namespace ShowPy

/-! ### Exception propagation -/

/-- The `inspect`/file oracles raise only the exception classes that source
introspection raises and `_get_source_code` catches: `OSError` from
`getsourcelines` and the file read, `OSError` or `TypeError` from the two
`getsource` calls. -/
def introspection_errors_only (env : SourceEnv) : Prop :=
  (∀ e, env.getsourcelines = .error e → e = PyExc.osError) ∧
  (∀ e, env.read_file = .error e → e = PyExc.osError) ∧
  (∀ e, env.getsource_frame = .error e → e = PyExc.osError ∨ e = PyExc.typeError) ∧
  (∀ e, env.getsource_code = .error e → e = PyExc.osError ∨ e = PyExc.typeError)

/-- `ast.parse` raises only the classes parsing raises and `show` catches:
`SyntaxError` or `ValueError`. -/
def parse_errors_only (parse : String → Except PyExc Tree) : Prop :=
  ∀ s e, parse s = .error e → e = PyExc.syntaxError ∨ e = PyExc.valueError

/-- Step (d) returns rather than raising when its oracle raises a caught
class. -/
theorem gsc_step4_ok (env : SourceEnv)
    (h4 : ∀ e, env.getsource_code = .error e → e = PyExc.osError ∨ e = PyExc.typeError) :
    ∃ r, gsc_step4 env = .ok r := by
  unfold gsc_step4
  cases hc : env.getsource_code with
  | ok s => exact ⟨(some s, 0), rfl⟩
  | error e =>
    have hd := h4 e hc
    exact ⟨(Option.none, 0), by simp [hd]⟩

/-- Steps (c) and (d) return rather than raising when their oracles raise
caught classes. -/
theorem gsc_step3_ok (env : SourceEnv)
    (h3 : ∀ e, env.getsource_frame = .error e → e = PyExc.osError ∨ e = PyExc.typeError)
    (h4 : ∀ e, env.getsource_code = .error e → e = PyExc.osError ∨ e = PyExc.typeError) :
    ∃ r, gsc_step3 env = .ok r := by
  unfold gsc_step3
  cases hc : env.getsource_frame with
  | ok s => exact ⟨(some s, 0), rfl⟩
  | error e =>
    rcases gsc_step4_ok env h4 with ⟨r, hr⟩
    have hd := h3 e hc
    exact ⟨r, by simp [hd, hr]⟩

/-- Steps (b), (c) and (d) return rather than raising when their oracles
raise caught classes. -/
theorem gsc_step2_ok (env : SourceEnv) (frame : Frame)
    (h2 : ∀ e, env.read_file = .error e → e = PyExc.osError)
    (h3 : ∀ e, env.getsource_frame = .error e → e = PyExc.osError ∨ e = PyExc.typeError)
    (h4 : ∀ e, env.getsource_code = .error e → e = PyExc.osError ∨ e = PyExc.typeError) :
    ∃ r, gsc_step2 env frame = .ok r := by
  unfold gsc_step2
  by_cases hf : real_path_filename frame.co_filename = true
  · rw [if_pos hf]
    cases hc : env.read_file with
    | ok txt => exact ⟨(some txt, 0), rfl⟩
    | error e =>
      rcases gsc_step3_ok env h3 h4 with ⟨r, hr⟩
      have hd := h2 e hc
      exact ⟨r, by simp [hd, hr]⟩
  · rw [if_neg hf]
    exact gsc_step3_ok env h3 h4

/-- `_get_source_code` never raises past its boundary when its oracles raise
only the caught introspection classes. -/
theorem get_source_code_ok (env : SourceEnv) (frame : Frame)
    (h : introspection_errors_only env) :
    ∃ r, get_source_code env frame = .ok r := by
  obtain ⟨h1, h2, h3, h4⟩ := h
  unfold get_source_code
  cases hc : env.getsourcelines with
  | ok p =>
    obtain ⟨ls, fl⟩ := p
    exact ⟨(some (dedent (String.join ls)), fl - 1), rfl⟩
  | error e =>
    rcases gsc_step2_ok env frame h2 h3 h4 with ⟨r, hr⟩
    have hd := h1 e hc
    exact ⟨r, by simp [hd, hr]⟩

/-- The static strategy never raises when introspection and parsing raise
only their caught classes. -/
theorem static_exprs_ok (env : ShowEnv) (frame : Frame)
    (hsrc : introspection_errors_only env.src) (hparse : parse_errors_only env.parse) :
    ∃ es, static_exprs env frame = .ok es := by
  unfold static_exprs
  rcases get_source_code_ok env.src frame hsrc with ⟨r, hr⟩
  rw [hr]
  obtain ⟨src?, off⟩ := r
  cases src? with
  | none => exact ⟨[], rfl⟩
  | some source =>
    rcases parsed_exprs_cases env frame source off with hc | ⟨e, hpe, hnc, hc⟩ | ⟨tree, hp, hc⟩
    · exact ⟨[], hc⟩
    · exact absurd (hparse source e hpe) hnc
    · exact ⟨_, hc⟩

/-- The whole recovery cascade never raises under the same conditions. -/
theorem raw_exprs_ok (env : ShowEnv) (frame : Frame) (values : List Obj)
    (hsrc : introspection_errors_only env.src) (hparse : parse_errors_only env.parse) :
    ∃ es, raw_exprs env frame values = .ok es := by
  unfold raw_exprs
  by_cases hh : (try_ipython_history env.parse env.ipython).isEmpty = true
  · rw [if_pos hh]
    rcases static_exprs_ok env frame hsrc hparse with ⟨es, hs⟩
    rw [hs]
    exact ⟨_, rfl⟩
  · rw [if_neg hh]
    exact ⟨_, rfl⟩

/-- `show` itself returns under the same conditions. -/
theorem show_py_ok (env : ShowEnv) (frame : Frame) (values : List Obj)
    (hsrc : introspection_errors_only env.src) (hparse : parse_errors_only env.parse) :
    ∃ out, show_py env frame values = .ok out := by
  rcases raw_exprs_ok env frame values hsrc hparse with ⟨es, hr⟩
  exact ⟨_, show_py_eq env frame values _ (padded_exprs_eq env frame values es hr)⟩

end ShowPy

namespace ShowPy

/-- Claim C6: no extraction strategy raises past its boundary.  The history
extractor returns a (possibly empty) list in every failure mode — missing
IPython module, no active shell, no history manager, a raising
`get_range`, empty history, malformed (short) history entry, and a parser
that never succeeds all yield `[]` — and source acquisition and static
parsing catch every exception introspection or parsing raises (`OSError`,
`TypeError`, `SyntaxError`, `ValueError` at the respective call sites), so
`show` returns normally. -/
theorem strategies_never_raise :
    (∀ parse, try_ipython_history parse IPythonState.absent = []) ∧
    (∀ parse, try_ipython_history parse IPythonState.noShell = []) ∧
    (∀ parse, try_ipython_history parse IPythonState.noHistoryManager = []) ∧
    (∀ parse sh e, sh.get_range sh.session_number = .error e →
      try_ipython_history parse (IPythonState.shell sh) = []) ∧
    (∀ parse sh, sh.get_range sh.session_number = .ok [] →
      try_ipython_history parse (IPythonState.shell sh) = []) ∧
    (∀ parse sh hist last, sh.get_range sh.session_number = .ok hist →
      hist.getLast? = some last → last.length < 3 →
      try_ipython_history parse (IPythonState.shell sh) = []) ∧
    (∀ parse st, (∀ s tree, parse s ≠ .ok tree) →
      try_ipython_history parse st = []) ∧
    (∀ env frame, introspection_errors_only env → ∃ r, get_source_code env frame = .ok r) ∧
    (∀ env frame values, introspection_errors_only env.src →
      parse_errors_only env.parse → ∃ out, show_py env frame values = .ok out) := by
  refine ⟨fun _ => rfl, fun _ => rfl, fun _ => rfl, ?_, ?_, ?_, ?_, ?_, ?_⟩
  · intro parse sh e hge
    show try_ipython_shell parse sh = []
    unfold try_ipython_shell
    rw [hge]
  · intro parse sh hge
    show try_ipython_shell parse sh = []
    unfold try_ipython_shell
    rw [hge]
    rfl
  · intro parse sh hist last hge hlast hlen
    show try_ipython_shell parse sh = []
    unfold try_ipython_shell
    rw [hge]
    show try_ipython_range parse hist = []
    unfold try_ipython_range
    have hne : hist.isEmpty = false := by
      cases hist with
      | nil => simp at hlast
      | cons a t => rfl
    rw [if_neg (by simp [hne])]
    rw [hlast]
    show hist_last_exprs parse last = []
    unfold hist_last_exprs
    rw [if_pos (by simp [hlen])]
  · intro parse st hfail
    rcases try_ipython_history_cases parse st with h | ⟨s, tree, hp, h⟩
    · exact h
    · exact absurd hp (hfail s tree)
  · intro env frame h
    exact get_source_code_ok env frame h
  · intro env frame values hsrc hparse
    exact show_py_ok env frame values hsrc hparse

/-- Witness for C6: with every introspection oracle raising `OSError` and a
parser that always raises `SyntaxError`, a `show()` call still returns. -/
theorem strategies_never_raise_witness :
    ∃ out, show_py trivialEnv frame1 [] = .ok out :=
  (strategies_never_raise.2.2.2.2.2.2.2.2) trivialEnv frame1 []
    ⟨fun e h => (Except.error.inj h).symm, fun e h => (Except.error.inj h).symm,
     fun e h => Or.inl (Except.error.inj h).symm,
     fun e h => Or.inl (Except.error.inj h).symm⟩
    (fun s e h => Or.inl (Except.error.inj h).symm)

/-- Claim C7: `_get_source_code` tries, in order, (a) the enclosing code
object's source via `getsourcelines`, dedented, with offset
`first_line - 1`; (b) a direct file read, attempted only when the frame's
filename is a real path (non-empty, not an angle-bracket placeholder);
(c) the frame's source; (d) the code object's source — first success wins —
and when all fail it returns no source with offset 0, upon which the
orchestrator falls through to the value-matching fallback. -/
theorem source_acquisition_order :
    (∀ env frame ls fl, env.getsourcelines = .ok (ls, fl) →
      get_source_code env frame = .ok (some (dedent (String.join ls)), fl - 1)) ∧
    (∀ env frame txt, env.getsourcelines = .error PyExc.osError →
      real_path_filename frame.co_filename = true → env.read_file = .ok txt →
      get_source_code env frame = .ok (some txt, 0)) ∧
    (∀ env frame s, env.getsourcelines = .error PyExc.osError →
      real_path_filename frame.co_filename = false → env.getsource_frame = .ok s →
      get_source_code env frame = .ok (some s, 0)) ∧
    (∀ env frame s, env.getsourcelines = .error PyExc.osError →
      real_path_filename frame.co_filename = true →
      env.read_file = .error PyExc.osError → env.getsource_frame = .ok s →
      get_source_code env frame = .ok (some s, 0)) ∧
    (∀ env frame s e, env.getsourcelines = .error PyExc.osError →
      real_path_filename frame.co_filename = false →
      env.getsource_frame = .error e → (e = PyExc.osError ∨ e = PyExc.typeError) →
      env.getsource_code = .ok s →
      get_source_code env frame = .ok (some s, 0)) ∧
    (∀ env frame, env.getsourcelines = .error PyExc.osError →
      real_path_filename frame.co_filename = false →
      env.getsource_frame = .error PyExc.osError →
      env.getsource_code = .error PyExc.osError →
      get_source_code env frame = .ok (Option.none, 0)) ∧
    (∀ (env : ShowEnv) frame values,
      try_ipython_history env.parse env.ipython = [] →
      get_source_code env.src frame = .ok (Option.none, 0) →
      raw_exprs env frame values = .ok (match_variables_to_values values frame.f_locals)) := by
  refine ⟨?_, ?_, ?_, ?_, ?_, ?_, ?_⟩
  · intro env frame ls fl hgsl
    unfold get_source_code
    rw [hgsl]
  · intro env frame txt hgsl hreal hread
    unfold get_source_code
    rw [hgsl]
    show gsc_step2 env frame = _
    unfold gsc_step2
    rw [if_pos hreal, hread]
  · intro env frame s hgsl hreal hframe
    unfold get_source_code
    rw [hgsl]
    show gsc_step2 env frame = _
    unfold gsc_step2
    rw [if_neg (by simp [hreal])]
    show gsc_step3 env = _
    unfold gsc_step3
    rw [hframe]
  · intro env frame s hgsl hreal hread hframe
    unfold get_source_code
    rw [hgsl]
    show gsc_step2 env frame = _
    unfold gsc_step2
    rw [if_pos hreal, hread]
    show gsc_step3 env = _
    unfold gsc_step3
    rw [hframe]
  · intro env frame s e hgsl hreal hframe hcaught hcode
    unfold get_source_code
    rw [hgsl]
    show gsc_step2 env frame = _
    unfold gsc_step2
    rw [if_neg (by simp [hreal])]
    show gsc_step3 env = _
    unfold gsc_step3
    rw [hframe]
    have h4 : gsc_step4 env = .ok (some s, 0) := by
      unfold gsc_step4
      rw [hcode]
    simp [hcaught, h4]
  · intro env frame hgsl hreal hframe hcode
    unfold get_source_code
    rw [hgsl]
    show gsc_step2 env frame = _
    unfold gsc_step2
    rw [if_neg (by simp [hreal])]
    show gsc_step3 env = _
    unfold gsc_step3
    rw [hframe]
    show gsc_step4 env = _
    unfold gsc_step4
    rw [hcode]
    rfl
  · intro env frame values hhist hsrc
    unfold raw_exprs
    have hcond : (try_ipython_history env.parse env.ipython).isEmpty = true := by
      rw [hhist]
      rfl
    rw [if_pos hcond]
    have hstat : static_exprs env frame = .ok [] := by
      unfold static_exprs
      rw [hsrc]
    rw [hstat]
    rfl

/-- Witness for C7: a successful `getsourcelines` wins immediately, the
source is dedented and the offset is `first_line - 1`. -/
theorem source_acquisition_order_witness :
    gslSourceEnv.getsourcelines = .ok (["pass\n"], 1) ∧
    get_source_code gslSourceEnv frame1 =
      .ok (some (dedent (String.join ["pass\n"])), 1 - 1) :=
  ⟨rfl, source_acquisition_order.1 gslSourceEnv frame1 ["pass\n"] 1 rfl⟩

end ShowPy
